import Mathlib

/-!
Verification of the sitemap-iter library (`src/lib.rs`): a parser that walks
an XML tree representing a sitemap and lazily yields `UrlEntry` records.

The XML tree itself is produced by the external `roxmltree` library; we embed
the slice of its interface the code uses (`is_element`, `tag_name().name()`,
`children()`, `text()`) over an inductive node type.  The entry-extraction
loop of `Document::iterate` and `Frequency::from_str` are translated
directly from the source.
-/

namespace SitemapIter

/-- A node of the parsed XML tree, as exposed by `roxmltree`: element nodes
with a tag name and ordered children, text nodes, and comment nodes
(comments stand for all non-element, non-text node kinds the iterator can
meet, e.g. processing instructions). -/
inductive Node where
  | Element (name : String) (children : List Node)
  | Text (content : String)
  | Comment (content : String)

/-- `roxmltree::Node::is_element`. -/
def Node.isElement : Node → Bool
  | .Element _ _ => true
  | _ => false

/-- `roxmltree::Node::tag_name().name()`: the local tag name of an element;
non-element nodes have the empty name. -/
def Node.tagName : Node → String
  | .Element n _ => n
  | _ => ""

/-- `roxmltree::Node::children()`: the ordered child list; text and comment
nodes have no children. -/
def Node.children : Node → List Node
  | .Element _ cs => cs
  | _ => []

/-- `roxmltree::Node::text()`: for an element, the content of its first child
when that child is a text node; for a text or comment node, its own content. -/
def Node.text : Node → Option String
  | .Element _ cs =>
      match cs with
      | .Text t :: _ => some t
      | _ => none
  | .Text t => some t
  | .Comment t => some t

/-- `FrequencyParseError` from `src/lib.rs`. -/
inductive FrequencyParseError where
  | InvalidFrequency
deriving Repr, DecidableEq

/-- `Frequency` from `src/lib.rs`: the frequency of change to a page. -/
inductive Frequency where
  | Always
  | Hourly
  | Daily
  | Weekly
  | Monthly
  | Yearly
  | Never
deriving Repr, DecidableEq

/-- Rust `u8::to_ascii_lowercase`, lifted to `Char` (the compared strings are
compared byte-wise in Rust; on ASCII data this agrees with char-wise). -/
def asciiLowerChar (c : Char) : Char :=
  if 'A' ≤ c ∧ c ≤ 'Z' then Char.ofNat (c.toNat + 32) else c

/-- Rust `str::eq_ignore_ascii_case`. -/
def eqIgnoreAsciiCase (a b : String) : Bool :=
  a.toList.map asciiLowerChar == b.toList.map asciiLowerChar

/-- `Frequency::from_str` from `src/lib.rs`. -/
def Frequency.from_str (s : String) : Except FrequencyParseError Frequency :=
  if eqIgnoreAsciiCase s "always" then .ok .Always
  else if eqIgnoreAsciiCase s "hourly" then .ok .Hourly
  else if eqIgnoreAsciiCase s "daily" then .ok .Daily
  else if eqIgnoreAsciiCase s "weekly" then .ok .Weekly
  else if eqIgnoreAsciiCase s "monthly" then .ok .Monthly
  else if eqIgnoreAsciiCase s "yearly" then .ok .Yearly
  else if eqIgnoreAsciiCase s "never" then .ok .Never
  else .error .InvalidFrequency

/-- The canonical lowercase token of each `Frequency` variant. -/
def Frequency.token : Frequency → String
  | .Always => "always"
  | .Hourly => "hourly"
  | .Daily => "daily"
  | .Weekly => "weekly"
  | .Monthly => "monthly"
  | .Yearly => "yearly"
  | .Never => "never"

/-- The value of a parsed floating-point literal.  The entry extractor only
needs to compare the value against the closed range `[0.0, 1.0]`, so we keep
the exact value of finite literals (no rounding to binary32), represented as
`num n k` standing for the rational `n / 10 ^ k`, and track the special
values `inf` and `NaN` symbolically. -/
inductive FVal where
  | num (n : ℤ) (k : ℕ)
  | posInf
  | negInf
  | nan
deriving Repr, DecidableEq

/-- The rational value of a finite parsed literal. -/
def FVal.value : FVal → Option ℚ
  | .num n k => some ((n : ℚ) / (10 : ℚ) ^ k)
  | _ => none

/-- Rust's `(0.0..=1.0).contains(&v)`: true exactly for finite values in the
closed range; false for `NaN` and both infinities. -/
def FVal.inRange01 : FVal → Bool
  | .num n k => decide (0 ≤ n ∧ n ≤ (10 : ℤ) ^ k)
  | _ => false

/-- One step of accumulating the digits of a natural number. -/
def digitVal (c : Char) : Option ℕ :=
  if '0' ≤ c ∧ c ≤ '9' then some (c.toNat - '0'.toNat) else none

/-- Reads a (possibly empty) run of ASCII digits, returning their value, how
many there were, and the rest of the input. -/
def readDigits : List Char → ℕ → ℕ → ℕ × ℕ × List Char
  | [], acc, n => (acc, n, [])
  | c :: rest, acc, n =>
      match digitVal c with
      | some d => readDigits rest (acc * 10 + d) (n + 1)
      | none => (acc, n, c :: rest)

/-- Parses the mantissa `Digit* ('.' Digit*)?` requiring at least one digit
overall, returning the pair `(m, k)` whose exact value is `m / 10 ^ k`, along
with the remaining input. -/
def parseMantissa (cs : List Char) : Option ((ℕ × ℕ) × List Char) :=
  let (ip, ni, rest) := readDigits cs 0 0
  match rest with
  | '.' :: rest2 =>
      let (fp, nf, rest3) := readDigits rest2 0 0
      if ni + nf = 0 then none
      else some ((ip * 10 ^ nf + fp, nf), rest3)
  | _ => if ni = 0 then none else some ((ip, 0), rest)

/-- Parses an optional exponent `(('e'|'E') Sign? Digit+)?` and scales the
mantissa `m / 10 ^ k` accordingly; must consume the whole remaining input. -/
def parseExponent (m k : ℕ) (cs : List Char) : Option (ℕ × ℕ) :=
  match cs with
  | [] => some (m, k)
  | e :: rest =>
      if e = 'e' ∨ e = 'E' then
        let (sgnNeg, rest2) :=
          match rest with
          | '+' :: r => (false, r)
          | '-' :: r => (true, r)
          | r => (false, r)
        let (ev, ne, rest3) := readDigits rest2 0 0
        if ne = 0 ∨ rest3 ≠ [] then none
        else if sgnNeg then some (m, k + ev) else some (m * 10 ^ ev, k)
      else none

/-- Models Rust's `str::parse::<f32>` (an external standard-library
collaborator, per the spec delegated verbatim): optional sign, then
`inf`/`infinity`/`nan` case-insensitively or a decimal mantissa with optional
exponent.  Finite values are kept exact (see `FVal`). -/
def parseF32 (s : String) : Option FVal :=
  let cs := s.toList.map asciiLowerChar
  let (neg, body) :=
    match cs with
    | '+' :: r => (false, r)
    | '-' :: r => (true, r)
    | r => (false, r)
  if body = "inf".toList ∨ body = "infinity".toList then
    some (if neg then .negInf else .posInf)
  else if body = "nan".toList then some .nan
  else
    match parseMantissa body with
    | none => none
    | some ((m, k), rest) =>
        match parseExponent m k rest with
        | none => none
        | some (m2, k2) =>
            some (.num (if neg then -(m2 : ℤ) else (m2 : ℤ)) k2)

/-- `UrlEntry` from `src/lib.rs`: the data of an entry in the `urlset`. -/
structure UrlEntry where
  location : String
  last_modified : Option String
  change_frequency : Option Frequency
  priority : Option FVal
deriving Repr, DecidableEq

/-- `Error` from `src/lib.rs`.  `Parse` wraps the external XML parser's
diagnostic; its payload is irrelevant to the iteration logic. -/
inductive Error where
  | UrlsetMissing
  | Parse
deriving Repr, DecidableEq

/-- `node_text_expected_name` from `src/lib.rs`. -/
def node_text_expected_name (node : Node) (expected_tag : String) : Option String :=
  if node.tagName = expected_tag then node.text else none

/-- The four accumulator slots of the per-entry scan loop in
`Document::iterate` (`loc`, `lastmod`, `changefreq`, `priority`). -/
structure ScanState where
  loc : Option String
  lastmod : Option String
  changefreq : Option Frequency
  priority : Option FVal
deriving Repr, DecidableEq

/-- The all-`None` initial state of the scan loop. -/
def ScanState.init : ScanState := ⟨none, none, none, none⟩

/-- The `for child in children` loop body of `Document::iterate`, iterated
over the element children of one candidate entry.  Returns `none` exactly
when the loop executes `return None` (a second `<loc>` with text). -/
def scanChildren : List Node → ScanState → Option ScanState
  | [], st => some st
  | c :: rest, st =>
      match node_text_expected_name c "loc" with
      | some t =>
          if st.loc.isNone then scanChildren rest { st with loc := some t }
          else none
      | none =>
          match node_text_expected_name c "lastmod" with
          | some t => scanChildren rest { st with lastmod := some t }
          | none =>
              match node_text_expected_name c "changefreq" with
              | some t =>
                  match Frequency.from_str t with
                  | .ok f => scanChildren rest { st with changefreq := some f }
                  | .error _ => scanChildren rest st
              | none =>
                  match node_text_expected_name c "priority" with
                  | some t =>
                      match parseF32 t with
                      | some v =>
                          if v.inRange01 then scanChildren rest { st with priority := some v }
                          else scanChildren rest st
                      | none => scanChildren rest st
                  | none => scanChildren rest st

/-- The `filter_map` closure of `Document::iterate`: scans one child of
`<urlset>` and emits a `UrlEntry` exactly when a `<loc>` was accepted. -/
def processCandidate (c : Node) : Option UrlEntry :=
  match scanChildren (c.children.filter Node.isElement) ScanState.init with
  | none => none
  | some st =>
      match st.loc with
      | some l => some ⟨l, st.lastmod, st.changefreq, st.priority⟩
      | none => none

/-- The root-location step of `Document::iterate`: the first element among
the document's top-level children, kept only when it is named `urlset`. -/
def findUrlset (topLevel : List Node) : Option Node :=
  match topLevel.find? Node.isElement with
  | some n => if n.tagName = "urlset" then some n else none
  | none => none

/-- `Document::iterate` from `src/lib.rs`, with the lazy iterator embedded as
the list of items it yields front-to-back.  `topLevel` is the child list of
`roxmltree::Document::root()`. -/
def iterate (topLevel : List Node) : Except Error (List UrlEntry) :=
  match findUrlset topLevel with
  | some n => .ok (n.children.filterMap processCandidate)
  | none => .error .UrlsetMissing

/-- The same iterator traversed back-to-front (`DoubleEndedIterator`): the
`filter_map` closure is applied to the candidates starting from the last. -/
def iterateBack (topLevel : List Node) : Except Error (List UrlEntry) :=
  match findUrlset topLevel with
  | some n => .ok (n.children.reverse.filterMap processCandidate)
  | none => .error .UrlsetMissing

/-- The texts of the `<loc>` element children of a candidate entry that
carry text, in document order: exactly the values the scan loop's `loc`
branch sees. -/
def locTexts (c : Node) : List String :=
  (c.children.filter Node.isElement).filterMap
    (fun ch => node_text_expected_name ch "loc")

end SitemapIter

/-! ## Helper lemmas about the scan loop's `loc` slot -/

namespace SitemapIter

/-- The `<loc>` texts a list of nodes contributes to the scan loop. -/
def locList (ns : List Node) : List String :=
  ns.filterMap (fun c => node_text_expected_name c "loc")

/-- The fate of the `loc` slot after scanning children whose loc texts are
the given list, starting from a given prior slot value: `none` means the
scan rejected the entry (`return None` on a duplicate `<loc>`). -/
def scanLocOutcome : Option String → List String → Option (Option String)
  | prior, [] => some prior
  | none, t :: ts => scanLocOutcome (some t) ts
  | some _, _ :: _ => none

theorem scanChildren_loc (ns : List Node) (st : ScanState) :
    Option.map ScanState.loc (scanChildren ns st) = scanLocOutcome st.loc (locList ns) := by
  induction ns generalizing st with
  | nil => simp [scanChildren, locList, scanLocOutcome]
  | cons c rest ih =>
      cases hl : node_text_expected_name c "loc" with
      | some t =>
          have hlocList : locList (c :: rest) = t :: locList rest := by
            simp [locList, hl]
          rw [hlocList]
          cases hst : st.loc with
          | none =>
              have hnone : st.loc.isNone = true := by simp [hst]
              simp only [scanChildren, hl, hnone, if_true, scanLocOutcome]
              simpa using ih { st with loc := some t }
          | some l =>
              have hsome : st.loc.isNone = false := by simp [hst]
              simp only [scanChildren, hl, hsome, Bool.false_eq_true, if_false,
                scanLocOutcome, Option.map_none']
      | none =>
          have hlocList : locList (c :: rest) = locList rest := by
            simp [locList, hl]
          rw [hlocList]
          simp only [scanChildren, hl]
          cases h2 : node_text_expected_name c "lastmod" with
          | some t => simpa using ih { st with lastmod := some t }
          | none =>
              simp only []
              cases h3 : node_text_expected_name c "changefreq" with
              | some t =>
                  simp only []
                  cases h4 : Frequency.from_str t with
                  | ok f => simpa using ih { st with changefreq := some f }
                  | error e => exact ih st
              | none =>
                  simp only []
                  cases h5 : node_text_expected_name c "priority" with
                  | some t =>
                      simp only []
                      cases h6 : parseF32 t with
                      | some v =>
                          simp only []
                          cases h7 : FVal.inRange01 v with
                          | true =>
                              simp only [h7, if_true]
                              simpa using ih { st with priority := some v }
                          | false =>
                              simp only [h7, Bool.false_eq_true, if_false]
                              exact ih st
                      | none => exact ih st
                  | none => exact ih st

/-- The loc texts of a candidate are the loc texts its (element-filtered)
children feed to the scan loop. -/
theorem locTexts_eq_locList (c : Node) :
    locTexts c = locList (c.children.filter Node.isElement) := rfl

/-- A candidate with exactly one `<loc>`-with-text yields one entry whose
location is that text. -/
theorem processCandidate_single_loc (c : Node) (t : String) (h : locTexts c = [t]) :
    ∃ e, processCandidate c = some e ∧ e.location = t := by
  have hscan := scanChildren_loc (c.children.filter Node.isElement) ScanState.init
  rw [← locTexts_eq_locList, h, show ScanState.init.loc = none from rfl] at hscan
  simp only [scanLocOutcome] at hscan
  unfold processCandidate
  cases hs : scanChildren (c.children.filter Node.isElement) ScanState.init with
  | none => rw [hs] at hscan; simp at hscan
  | some st =>
      rw [hs] at hscan
      have hst : st.loc = some t := by
        simpa using hscan
      refine ⟨⟨t, st.lastmod, st.changefreq, st.priority⟩, ?_, rfl⟩
      simp [hst]

/-- A candidate with no `<loc>`-with-text yields no entry. -/
theorem processCandidate_no_loc (c : Node) (h : locTexts c = []) :
    processCandidate c = none := by
  have hscan := scanChildren_loc (c.children.filter Node.isElement) ScanState.init
  rw [← locTexts_eq_locList, h, show ScanState.init.loc = none from rfl] at hscan
  simp only [scanLocOutcome] at hscan
  unfold processCandidate
  cases hs : scanChildren (c.children.filter Node.isElement) ScanState.init with
  | none => rfl
  | some st =>
      rw [hs] at hscan
      have hst : st.loc = none := by simpa using hscan
      simp [hst]

/-- A candidate with two or more `<loc>`-with-text children is rejected. -/
theorem processCandidate_dup_loc (c : Node) (h : 2 ≤ (locTexts c).length) :
    processCandidate c = none := by
  have hscan := scanChildren_loc (c.children.filter Node.isElement) ScanState.init
  rw [← locTexts_eq_locList] at hscan
  obtain ⟨t1, t2, ts, hts⟩ : ∃ t1 t2 ts, locTexts c = t1 :: t2 :: ts := by
    match hx : locTexts c with
    | [] => rw [hx] at h; simp at h
    | [t] => rw [hx] at h; simp at h
    | t1 :: t2 :: ts => exact ⟨t1, t2, ts, rfl⟩
  rw [hts, show ScanState.init.loc = none from rfl] at hscan
  simp only [scanLocOutcome] at hscan
  unfold processCandidate
  cases hs : scanChildren (c.children.filter Node.isElement) ScanState.init with
  | none => rfl
  | some st => rw [hs] at hscan; simp at hscan

/-- `iterate` on a document whose only top-level node is `<urlset>`. -/
theorem iterate_urlset (cs : List Node) :
    iterate [Node.Element "urlset" cs] = .ok (cs.filterMap processCandidate) := by
  simp [iterate, findUrlset, List.find?, Node.isElement, Node.tagName, Node.children]

end SitemapIter

namespace SitemapIter

/-- Scanning past a `<lastmod>` child with text overwrites the `lastmod`
slot unconditionally (last write wins) and never rejects the entry. -/
theorem scanChildren_lastmod_step (c : Node) (t : String)
    (hname : c.tagName = "lastmod") (htext : c.text = some t)
    (st : ScanState) (rest : List Node) :
    scanChildren (c :: rest) st = scanChildren rest { st with lastmod := some t } := by
  simp [scanChildren, node_text_expected_name, hname, htext]

/-- Scanning past a `<changefreq>` child with text sets the `changefreq`
slot exactly when the text parses as a `Frequency` (overwriting any prior
value) and leaves it untouched otherwise; the entry is never rejected. -/
theorem scanChildren_changefreq_step (c : Node) (t : String)
    (hname : c.tagName = "changefreq") (htext : c.text = some t)
    (st : ScanState) (rest : List Node) :
    scanChildren (c :: rest) st =
      scanChildren rest
        (match Frequency.from_str t with
         | .ok f => { st with changefreq := some f }
         | .error _ => st) := by
  cases hf : Frequency.from_str t <;>
    simp [scanChildren, node_text_expected_name, hname, htext, hf]

/-- Scanning past a `<priority>` child with text sets the `priority` slot
exactly when the text parses as a float lying in `[0.0, 1.0]` and leaves it
untouched otherwise; the entry is never rejected. -/
theorem scanChildren_priority_step (c : Node) (t : String)
    (hname : c.tagName = "priority") (htext : c.text = some t)
    (st : ScanState) (rest : List Node) :
    scanChildren (c :: rest) st =
      scanChildren rest
        (match parseF32 t with
         | some v => if v.inRange01 then { st with priority := some v } else st
         | none => st) := by
  cases hp : parseF32 t with
  | none => simp [scanChildren, node_text_expected_name, hname, htext, hp]
  | some v =>
      cases hr : FVal.inRange01 v <;>
        simp [scanChildren, node_text_expected_name, hname, htext, hp, hr]

/-! ## Characterization of `Frequency::from_str` -/

/-- `eq_ignore_ascii_case` is transitive through a common left argument. -/
theorem eqI_trans {s a b : String} (h1 : eqIgnoreAsciiCase s a = true)
    (h2 : eqIgnoreAsciiCase s b = true) : eqIgnoreAsciiCase a b = true := by
  simp only [eqIgnoreAsciiCase, beq_iff_eq] at *
  rw [← h1, ← h2]

/-- The seven frequency tokens are pairwise ASCII-case-distinct. -/
theorem token_eqI_inj :
    ∀ f g : Frequency, eqIgnoreAsciiCase f.token g.token = true → f = g := by
  intro f g h
  cases f <;> cases g <;> first
    | rfl
    | (exfalso; revert h; decide)

theorem eqI_false_of (s a b : String) (hab : eqIgnoreAsciiCase a b = false)
    (h : eqIgnoreAsciiCase s b = true) : eqIgnoreAsciiCase s a = false := by
  cases hx : eqIgnoreAsciiCase s a with
  | false => rfl
  | true => exact absurd (eqI_trans hx h) (by simp [hab])

/-- Success characterization: the parse returns a variant exactly on a
case-insensitive match of its token. -/
theorem from_str_ok_iff (s : String) (f : Frequency) :
    Frequency.from_str s = .ok f ↔ eqIgnoreAsciiCase s f.token = true := by
  constructor
  · intro h
    unfold Frequency.from_str at h
    split_ifs at h with h1 h2 h3 h4 h5 h6 h7 <;>
      simp only [Except.ok.injEq, reduceCtorEq] at h <;>
      (subst h; simpa [Frequency.token] using ‹_›)
  · intro h
    cases f with
    | Always =>
        simp only [Frequency.token] at h
        simp [Frequency.from_str, h]
    | Hourly =>
        simp only [Frequency.token] at h
        have kA := eqI_false_of s "always" "hourly" (by decide) h
        simp [Frequency.from_str, h, kA]
    | Daily =>
        simp only [Frequency.token] at h
        have kA := eqI_false_of s "always" "daily" (by decide) h
        have kH := eqI_false_of s "hourly" "daily" (by decide) h
        simp [Frequency.from_str, h, kA, kH]
    | Weekly =>
        simp only [Frequency.token] at h
        have kA := eqI_false_of s "always" "weekly" (by decide) h
        have kH := eqI_false_of s "hourly" "weekly" (by decide) h
        have kD := eqI_false_of s "daily" "weekly" (by decide) h
        simp [Frequency.from_str, h, kA, kH, kD]
    | Monthly =>
        simp only [Frequency.token] at h
        have kA := eqI_false_of s "always" "monthly" (by decide) h
        have kH := eqI_false_of s "hourly" "monthly" (by decide) h
        have kD := eqI_false_of s "daily" "monthly" (by decide) h
        have kW := eqI_false_of s "weekly" "monthly" (by decide) h
        simp [Frequency.from_str, h, kA, kH, kD, kW]
    | Yearly =>
        simp only [Frequency.token] at h
        have kA := eqI_false_of s "always" "yearly" (by decide) h
        have kH := eqI_false_of s "hourly" "yearly" (by decide) h
        have kD := eqI_false_of s "daily" "yearly" (by decide) h
        have kW := eqI_false_of s "weekly" "yearly" (by decide) h
        have kM := eqI_false_of s "monthly" "yearly" (by decide) h
        simp [Frequency.from_str, h, kA, kH, kD, kW, kM]
    | Never =>
        simp only [Frequency.token] at h
        have kA := eqI_false_of s "always" "never" (by decide) h
        have kH := eqI_false_of s "hourly" "never" (by decide) h
        have kD := eqI_false_of s "daily" "never" (by decide) h
        have kW := eqI_false_of s "weekly" "never" (by decide) h
        have kM := eqI_false_of s "monthly" "never" (by decide) h
        have kY := eqI_false_of s "yearly" "never" (by decide) h
        simp [Frequency.from_str, h, kA, kH, kD, kW, kM, kY]

/-- Failure characterization: the parse fails with `InvalidFrequency`
exactly when the input case-insensitively matches none of the tokens. -/
theorem from_str_error_iff (s : String) :
    Frequency.from_str s = .error .InvalidFrequency ↔
      ∀ f : Frequency, eqIgnoreAsciiCase s f.token = false := by
  constructor
  · intro he f
    cases hx : eqIgnoreAsciiCase s f.token with
    | false => rfl
    | true =>
        rw [(from_str_ok_iff s f).mpr hx] at he
        exact absurd he (by simp)
  · intro hall
    cases hx : Frequency.from_str s with
    | ok f => exact absurd ((from_str_ok_iff s f).mp hx) (by simp [hall f])
    | error e => cases e; rfl

end SitemapIter

/-! ## Claim theorems -/

namespace SitemapIter

theorem filterMap_processCandidate_all (cs : List Node)
    (h : ∀ c ∈ cs, ∃ t, locTexts c = [t]) :
    ((cs.filterMap processCandidate).map UrlEntry.location
        = cs.map fun c => (locTexts c).headI) ∧
    (cs.filterMap processCandidate).length = cs.length := by
  induction cs with
  | nil => simp
  | cons c cs ih =>
      obtain ⟨t, ht⟩ := h c (by simp)
      obtain ⟨e, he, hloc⟩ := processCandidate_single_loc c t ht
      obtain ⟨ih1, ih2⟩ := ih fun c hc => h c (by simp [hc])
      refine ⟨?_, ?_⟩
      · simp [he, ih1, hloc, ht]
      · simp [he, ih2]

/-- **C1.** For a document whose root element `<urlset>` has N children, each
containing exactly one `<loc>` element child with text (whatever its own tag
name), `iterate` yields exactly N entries, in document order, the i-th
entry's location being the i-th child's `<loc>` text. -/
theorem c1_iterate_yields_all_entries_in_order (cs : List Node)
    (h : ∀ c ∈ cs, ∃ t, locTexts c = [t]) :
    ∃ l, iterate [Node.Element "urlset" cs] = .ok l ∧
      l.length = cs.length ∧
      l.map UrlEntry.location = cs.map fun c => (locTexts c).headI := by
  obtain ⟨h1, h2⟩ := filterMap_processCandidate_all cs h
  exact ⟨cs.filterMap processCandidate, iterate_urlset cs, h2, h1⟩

/-- Witness for C1: a concrete two-entry `<urlset>`. -/
theorem c1_witness :
    ∃ l, iterate [Node.Element "urlset"
        [Node.Element "url" [Node.Element "loc" [Node.Text "a"]],
         Node.Element "url" [Node.Element "loc" [Node.Text "b"]]]] = .ok l ∧
      l.length = 2 ∧
      l.map UrlEntry.location = ["a", "b"] := by
  have h := c1_iterate_yields_all_entries_in_order
    [Node.Element "url" [Node.Element "loc" [Node.Text "a"]],
     Node.Element "url" [Node.Element "loc" [Node.Text "b"]]]
    (by
      intro c hc
      simp only [List.mem_cons, List.not_mem_nil, or_false] at hc
      rcases hc with rfl | rfl
      · exact ⟨"a", rfl⟩
      · exact ⟨"b", rfl⟩)
  simpa using h

/-- **C2.** A candidate entry with two (or more) `<loc>` children with text,
or with no `<loc>` with text at all, contributes zero items, and the scan of
the remaining sibling candidates continues unaffected. -/
theorem c2_bad_entry_dropped_scan_continues (pre post : List Node) (c : Node)
    (h : locTexts c = [] ∨ 2 ≤ (locTexts c).length) :
    processCandidate c = none ∧
    iterate [Node.Element "urlset" (pre ++ c :: post)] =
      .ok (pre.filterMap processCandidate ++ post.filterMap processCandidate) := by
  have hc : processCandidate c = none := by
    rcases h with h | h
    · exact processCandidate_no_loc c h
    · exact processCandidate_dup_loc c h
  refine ⟨hc, ?_⟩
  rw [iterate_urlset, List.filterMap_append, List.filterMap_cons_none hc]

/-- Witness for C2: `<url><loc>A</loc><loc>B</loc></url>` between two valid
entries is dropped while its siblings survive. -/
theorem c2_witness :
    processCandidate (Node.Element "url"
        [Node.Element "loc" [Node.Text "A"], Node.Element "loc" [Node.Text "B"]]) = none ∧
    iterate [Node.Element "urlset"
        [Node.Element "url" [Node.Element "loc" [Node.Text "a"]],
         Node.Element "url"
           [Node.Element "loc" [Node.Text "A"], Node.Element "loc" [Node.Text "B"]],
         Node.Element "url" [Node.Element "loc" [Node.Text "b"]]]] =
      .ok ([Node.Element "url" [Node.Element "loc" [Node.Text "a"]]].filterMap processCandidate ++
           [Node.Element "url" [Node.Element "loc" [Node.Text "b"]]].filterMap processCandidate) :=
  c2_bad_entry_dropped_scan_continues
    [Node.Element "url" [Node.Element "loc" [Node.Text "a"]]]
    [Node.Element "url" [Node.Element "loc" [Node.Text "b"]]]
    (Node.Element "url"
      [Node.Element "loc" [Node.Text "A"], Node.Element "loc" [Node.Text "B"]])
    (Or.inr (by decide))

/-- **C3.** If the first element node among the document's top-level children
is not named `urlset`, or no top-level element node exists, `iterate` returns
the `UrlsetMissing` error and produces no entries. -/
theorem c3_urlset_missing (topLevel : List Node)
    (h : ∀ n, topLevel.find? Node.isElement = some n → n.tagName ≠ "urlset") :
    iterate topLevel = .error Error.UrlsetMissing := by
  unfold iterate findUrlset
  cases hf : topLevel.find? Node.isElement with
  | none => rfl
  | some n => simp [h n hf]

/-- Witness for C3: a document whose root element is `<sitemapindex>`. -/
theorem c3_witness :
    iterate [Node.Comment "c", Node.Element "sitemapindex" []] =
      .error Error.UrlsetMissing :=
  c3_urlset_missing [Node.Comment "c", Node.Element "sitemapindex" []]
    (by
      intro n hn
      simp only [List.find?, Node.isElement] at hn
      cases hn
      decide)

end SitemapIter

namespace SitemapIter

/-- **C4.** A `<changefreq>` child whose text parses as a `Frequency` sets
the `changefreq` slot (overwriting any prior value); one whose text does not
parse leaves the slot exactly as it was, and never rejects the entry.  In
particular `<changefreq>Weekly</changefreq>` yields `Some(Weekly)` and
`<changefreq>fortnightly</changefreq>` alone yields `None`. -/
theorem c4_changefreq_semantics :
    (∀ (c : Node) (t : String), c.tagName = "changefreq" → c.text = some t →
      ∀ (st : ScanState) (rest : List Node),
        scanChildren (c :: rest) st =
          scanChildren rest
            (match Frequency.from_str t with
             | .ok f => { st with changefreq := some f }
             | .error _ => st)) ∧
    processCandidate (Node.Element "url"
        [Node.Element "loc" [Node.Text "X"],
         Node.Element "changefreq" [Node.Text "Weekly"]]) =
      some ⟨"X", none, some .Weekly, none⟩ ∧
    processCandidate (Node.Element "url"
        [Node.Element "loc" [Node.Text "X"],
         Node.Element "changefreq" [Node.Text "fortnightly"]]) =
      some ⟨"X", none, none, none⟩ :=
  ⟨scanChildren_changefreq_step, by decide, by decide⟩

/-- Witness for C4: the general step applied to a concrete `<changefreq>`
child, with both a parsing and a non-parsing text. -/
theorem c4_witness :
    scanChildren [Node.Element "changefreq" [Node.Text "Weekly"]]
        ⟨some "X", none, none, none⟩ =
      some ⟨some "X", none, some .Weekly, none⟩ ∧
    scanChildren [Node.Element "changefreq" [Node.Text "fortnightly"]]
        ⟨some "X", none, some .Daily, none⟩ =
      some ⟨some "X", none, some .Daily, none⟩ := by
  constructor
  · rw [c4_changefreq_semantics.1 (Node.Element "changefreq" [Node.Text "Weekly"])
      "Weekly" rfl rfl ⟨some "X", none, none, none⟩ []]
    decide
  · rw [c4_changefreq_semantics.1 (Node.Element "changefreq" [Node.Text "fortnightly"])
      "fortnightly" rfl rfl ⟨some "X", none, some .Daily, none⟩ []]
    decide

/-- **C5.** A `<priority>` child's text sets the `priority` slot iff it
parses as a float lying in the closed range `[0.0, 1.0]`; an out-of-range or
unparseable text leaves the slot unset without rejecting the entry, so
`<url><loc>X</loc><priority>1.5</priority></url>` and
`<url><loc>X</loc><priority>abc</priority></url>` each yield one entry with
`priority = None`. -/
theorem c5_priority_semantics :
    (∀ (c : Node) (t : String), c.tagName = "priority" → c.text = some t →
      ∀ (st : ScanState) (rest : List Node),
        scanChildren (c :: rest) st =
          scanChildren rest
            (match parseF32 t with
             | some v => if v.inRange01 then { st with priority := some v } else st
             | none => st)) ∧
    processCandidate (Node.Element "url"
        [Node.Element "loc" [Node.Text "X"],
         Node.Element "priority" [Node.Text "1.5"]]) =
      some ⟨"X", none, none, none⟩ ∧
    processCandidate (Node.Element "url"
        [Node.Element "loc" [Node.Text "X"],
         Node.Element "priority" [Node.Text "abc"]]) =
      some ⟨"X", none, none, none⟩ :=
  ⟨scanChildren_priority_step, by decide, by decide⟩

/-- Witness for C5: the general step applied to a concrete `<priority>`
child, with an in-range and an out-of-range text. -/
theorem c5_witness :
    scanChildren [Node.Element "priority" [Node.Text "0.5"]]
        ⟨some "X", none, none, none⟩ =
      some ⟨some "X", none, none, some (.num 5 1)⟩ ∧
    scanChildren [Node.Element "priority" [Node.Text "1.5"]]
        ⟨some "X", none, none, none⟩ =
      some ⟨some "X", none, none, none⟩ := by
  constructor
  · rw [c5_priority_semantics.1 (Node.Element "priority" [Node.Text "0.5"])
      "0.5" rfl rfl ⟨some "X", none, none, none⟩ []]
    decide
  · rw [c5_priority_semantics.1 (Node.Element "priority" [Node.Text "1.5"])
      "1.5" rfl rfl ⟨some "X", none, none, none⟩ []]
    decide

/-- **C6.** Several `<lastmod>` children within one entry: the emitted
entry's `last_modified` is the text of the last one (last write wins, the
entry is not rejected); concretely `2020-01-01` then `2021-01-01` yields
`Some("2021-01-01")`. -/
theorem c6_lastmod_last_wins :
    (∀ (c : Node) (t : String), c.tagName = "lastmod" → c.text = some t →
      ∀ (st : ScanState) (rest : List Node),
        scanChildren (c :: rest) st = scanChildren rest { st with lastmod := some t }) ∧
    processCandidate (Node.Element "url"
        [Node.Element "loc" [Node.Text "X"],
         Node.Element "lastmod" [Node.Text "2020-01-01"],
         Node.Element "lastmod" [Node.Text "2021-01-01"]]) =
      some ⟨"X", some "2021-01-01", none, none⟩ :=
  ⟨scanChildren_lastmod_step, by decide⟩

/-- Witness for C6: overwriting a previously set `lastmod` slot. -/
theorem c6_witness :
    scanChildren [Node.Element "lastmod" [Node.Text "2021-01-01"]]
        ⟨some "X", some "2020-01-01", none, none⟩ =
      some ⟨some "X", some "2021-01-01", none, none⟩ := by
  rw [c6_lastmod_last_wins.1 (Node.Element "lastmod" [Node.Text "2021-01-01"])
    "2021-01-01" rfl rfl ⟨some "X", some "2020-01-01", none, none⟩ []]
  rfl

/-- **C7.** For every successfully parsed document the produced sequence is
deterministic and restartable: a second independent traversal yields the
same entry list, and traversing back-to-front (`DoubleEndedIterator`) yields
exactly the reverse of the front-to-back list. -/
theorem c7_deterministic_reversible (topLevel : List Node) (l : List UrlEntry)
    (h : iterate topLevel = .ok l) :
    iterate topLevel = .ok l ∧ iterateBack topLevel = .ok l.reverse := by
  refine ⟨h, ?_⟩
  unfold iterate at h
  unfold iterateBack
  cases hf : findUrlset topLevel with
  | none => rw [hf] at h; exact absurd h (by simp)
  | some n =>
      rw [hf] at h
      simp only [Except.ok.injEq] at h
      subst h
      exact congrArg Except.ok (List.filterMap_reverse _ _)

/-- Witness for C7: a concrete two-entry document and its reversal. -/
theorem c7_witness :
    iterate [Node.Element "urlset"
        [Node.Element "url" [Node.Element "loc" [Node.Text "a"]],
         Node.Element "url" [Node.Element "loc" [Node.Text "b"]]]] =
      .ok [⟨"a", none, none, none⟩, ⟨"b", none, none, none⟩] ∧
    iterateBack [Node.Element "urlset"
        [Node.Element "url" [Node.Element "loc" [Node.Text "a"]],
         Node.Element "url" [Node.Element "loc" [Node.Text "b"]]]] =
      .ok ([⟨"a", none, none, none⟩, ⟨"b", none, none, none⟩] :
        List UrlEntry).reverse :=
  c7_deterministic_reversible _ _ (by rw [iterate_urlset]; rfl)

end SitemapIter

namespace SitemapIter

/-- The range check of the extractor agrees with the rational value: a
finite parsed literal passes `(0.0..=1.0).contains` exactly when its value
lies in the closed interval `[0, 1]` of `ℚ`. -/
theorem inRange01_iff_value (n : ℤ) (k : ℕ) :
    FVal.inRange01 (.num n k) = true ↔
      0 ≤ (n : ℚ) / (10 : ℚ) ^ k ∧ (n : ℚ) / (10 : ℚ) ^ k ≤ 1 := by
  have hpow : (0 : ℚ) < (10 : ℚ) ^ k := by positivity
  simp only [FVal.inRange01, decide_eq_true_eq]
  constructor
  · rintro ⟨h1, h2⟩
    refine ⟨div_nonneg (by exact_mod_cast h1) hpow.le, ?_⟩
    rw [div_le_one hpow]
    calc (n : ℚ) ≤ ((10 : ℤ) ^ k : ℤ) := by exact_mod_cast h2
      _ = (10 : ℚ) ^ k := by push_cast; ring
  · rintro ⟨h1, h2⟩
    constructor
    · have : (0 : ℚ) ≤ (n : ℚ) := by
        have := mul_nonneg h1 hpow.le
        rwa [div_mul_cancel₀ _ hpow.ne'] at this
      exact_mod_cast this
    · rw [div_le_one hpow] at h2
      have : (n : ℚ) ≤ ((10 : ℤ) ^ k : ℤ) := by push_cast at h2 ⊢; linarith
      exact_mod_cast this

/-- **C8.** Frequency parsing succeeds exactly on a case-insensitive match
of one of the seven literal tokens (returning the corresponding variant) and
fails with `InvalidFrequency` on every other input. -/
theorem c8_frequency_parse_characterization (s : String) :
    (∀ f : Frequency, Frequency.from_str s = .ok f ↔
      eqIgnoreAsciiCase s f.token = true) ∧
    (Frequency.from_str s = .error .InvalidFrequency ↔
      ∀ f : Frequency, eqIgnoreAsciiCase s f.token = false) :=
  ⟨from_str_ok_iff s, from_str_error_iff s⟩

/-- Witness for C8: a mixed-case match, a padded miss and a partial miss. -/
theorem c8_witness :
    Frequency.from_str "Weekly" = .ok .Weekly ∧
    Frequency.from_str " always" = .error .InvalidFrequency ∧
    Frequency.from_str "dail" = .error .InvalidFrequency :=
  ⟨((c8_frequency_parse_characterization "Weekly").1 .Weekly).mpr (by decide),
   ((c8_frequency_parse_characterization " always").2).mpr
     (by intro f; cases f <;> decide),
   ((c8_frequency_parse_characterization "dail").2).mpr
     (by intro f; cases f <;> decide)⟩

/-- **C9.** A non-element child of `<urlset>` (text between entries, a
comment, …) is processed as a candidate entry but contributes zero items
(it has no element children, so no location is ever set), and iteration
continues with the remaining siblings. -/
theorem c9_non_element_candidate (pre post : List Node) (c : Node)
    (h : c.isElement = false) :
    processCandidate c = none ∧
    iterate [Node.Element "urlset" (pre ++ c :: post)] =
      .ok (pre.filterMap processCandidate ++ post.filterMap processCandidate) := by
  have hempty : locTexts c = [] := by
    cases c with
    | Element n cs => simp [Node.isElement] at h
    | Text t => rfl
    | Comment t => rfl
  have hc : processCandidate c = none := processCandidate_no_loc c hempty
  refine ⟨hc, ?_⟩
  rw [iterate_urlset, List.filterMap_append, List.filterMap_cons_none hc]

/-- Witness for C9: a whitespace text node between two entries. -/
theorem c9_witness :
    processCandidate (Node.Text "\n  ") = none ∧
    iterate [Node.Element "urlset"
        [Node.Element "url" [Node.Element "loc" [Node.Text "a"]],
         Node.Text "\n  ",
         Node.Element "url" [Node.Element "loc" [Node.Text "b"]]]] =
      .ok ([Node.Element "url" [Node.Element "loc" [Node.Text "a"]]].filterMap processCandidate ++
           [Node.Element "url" [Node.Element "loc" [Node.Text "b"]]].filterMap processCandidate) :=
  c9_non_element_candidate
    [Node.Element "url" [Node.Element "loc" [Node.Text "a"]]]
    [Node.Element "url" [Node.Element "loc" [Node.Text "b"]]]
    (Node.Text "\n  ") rfl

/-- The loc texts of a candidate, computed through its `<loc>`-named element
children. -/
theorem locTexts_eq_filter (c : Node) :
    locTexts c =
      ((c.children.filter Node.isElement).filter
        (fun n => n.tagName == "loc")).filterMap Node.text := by
  rw [locTexts_eq_locList]
  generalize c.children.filter Node.isElement = ns
  induction ns with
  | nil => rfl
  | cons a ns ih =>
      by_cases h : a.tagName = "loc"
      · have hb : (a.tagName == "loc") = true := by simp [h]
        cases ht : a.text with
        | none =>
            simp [locList, List.filterMap_cons, node_text_expected_name, h, ht,
              List.filter_cons, hb, ← ih, locList]
        | some t =>
            simp [locList, List.filterMap_cons, node_text_expected_name, h, ht,
              List.filter_cons, hb, ← ih, locList]
      · have hb : (a.tagName == "loc") = false := by simp [h]
        simp [locList, List.filterMap_cons, node_text_expected_name, h,
          List.filter_cons, hb, ← ih, locList]

/-- **C10.** Duplicate-`<loc>` rejection fires only when the later `<loc>`
has text content: if the first `<loc>` child has text `t` and every
subsequent `<loc>` child has no text, the entry is emitted with location
`t` rather than rejected. -/
theorem c10_dup_loc_needs_text (c : Node) (t : String) (l0 : Node) (ls : List Node)
    (hlocs : (c.children.filter Node.isElement).filter
      (fun n => n.tagName == "loc") = l0 :: ls)
    (ht : l0.text = some t)
    (hrest : ∀ l ∈ ls, l.text = none) :
    ∃ e, processCandidate c = some e ∧ e.location = t := by
  apply processCandidate_single_loc
  have h2 : ls.filterMap Node.text = [] := List.filterMap_eq_nil_iff.mpr hrest
  rw [locTexts_eq_filter, hlocs, List.filterMap_cons, ht, h2]

/-- Witness for C10: `<url><loc>A</loc><loc/></url>` is accepted with
location `A`. -/
theorem c10_witness :
    ∃ e, processCandidate (Node.Element "url"
        [Node.Element "loc" [Node.Text "A"], Node.Element "loc" []]) = some e ∧
      e.location = "A" :=
  c10_dup_loc_needs_text
    (Node.Element "url" [Node.Element "loc" [Node.Text "A"], Node.Element "loc" []])
    "A" (Node.Element "loc" [Node.Text "A"]) [Node.Element "loc" []]
    rfl rfl
    (by
      intro l hl
      rw [List.mem_singleton] at hl
      subst hl
      rfl)

end SitemapIter
